import Mathlib

/-!
Shallow embedding of the UI-hierarchy extraction, caching and query
subsystem of the adb-helper repository (the `Screen` facade with its
three single-slot caches, the tree flattener `extractNodes`, the element
matcher `findElement`, the resolution parser `getScreenResolution`, and
the attribute-flag query `checkAttribute` of `UIAttributes`).

JavaScript attribute values in this subsystem are either booleans or
strings; element records are JS objects with dynamic string keys,
modelled as association lists (first occurrence wins on lookup, JS
property assignment updates in place or appends).  Asynchronous device
interaction is modelled by passing the device's textual response (and
the markup document produced by the external `xml2js` parser) as
explicit parameters; the mutable cache fields of `CacheManagement`
become an explicit `ScreenState` threaded through each operation.
-/

/-- A JS value stored in an element record: the flattener coerces the
literal attribute tokens "true"/"false" to booleans and keeps every
other token as a string. -/
inductive Value where
  | bool (b : Bool)
  | str (s : String)
deriving DecidableEq, Repr

/-- One widget's attribute set (a JS object with dynamic keys):
an association list from attribute name to value. -/
abbrev ElementRecord := List (String × Value)

/-- JS property read `element[key]`: first binding of the key, `none`
models `undefined`. -/
def lookupAttr (e : ElementRecord) (k : String) : Option Value :=
  match e with
  | [] => none
  | (k', v) :: rest => if k' = k then some v else lookupAttr rest k

/-- JS property write `element[key] = v`: updates the existing binding
in place, otherwise appends a new one. -/
def setAttr (e : ElementRecord) (k : String) (v : Value) : ElementRecord :=
  match e with
  | [] => [(k, v)]
  | (k', v') :: rest => if k' = k then (k, v) :: rest else (k', v') :: setAttr rest k v

/-- JS truthiness of a `Value`: `false` and the empty string are falsy,
everything else is truthy. -/
def truthyValue : Value → Bool
  | .bool b => b
  | .str s => !(s = "")

/-- The coercion applied to every markup attribute value during
flattening: `value === "false" ? false : value === "true" ? true : value`. -/
def coerceAttrValue (s : String) : Value :=
  if s = "false" then .bool false else if s = "true" then .bool true else .str s

/-- Building an `ElementRecord` from a node's attribute map
(`for (const [key, value] of Object.entries(node['$'])) element[key] = ...`). -/
def recordOfAttrs (attrs : List (String × String)) : ElementRecord :=
  attrs.foldl (fun acc kv => setAttr acc kv.1 (coerceAttrValue kv.2)) []

/-- A node of the parsed markup document as produced by `xml2js`:
`attrs` models the optional `$` attribute map (absent when the tag has
no attributes) and `children` models the `node` child array (empty when
the key is absent). -/
inductive XNode where
  | mk (attrs : Option (List (String × String))) (children : List XNode)

/-- The `$` attribute map of a parsed node. -/
def XNode.attrs : XNode → Option (List (String × String))
  | .mk a _ => a

/-- The `node` child array of a parsed node. -/
def XNode.children : XNode → List XNode
  | .mk _ c => c

mutual

/-- The recursive `extractNodes` helper of `getScreenHierarchy`:
if the node has a `$` attribute map, push one record built from it,
then recurse into the `node` children in order. -/
def extractNodes (n : XNode) : List ElementRecord :=
  match n with
  | .mk attrs children =>
    (match attrs with
     | some a => [recordOfAttrs a]
     | none => []) ++ extractForest children

/-- The `for (const childNode of node.node) extractNodes(childNode)`
loop: records of the children in order. -/
def extractForest (l : List XNode) : List ElementRecord :=
  match l with
  | [] => []
  | c :: rest => extractNodes c ++ extractForest rest

end

/-- The mutable cache fields of `CacheManagement` owned by a `Screen`
facade instance (the `currentActivity` slot is unused by this
subsystem and omitted). -/
structure ScreenState where
  cachedScreenHierarchy : Option (List ElementRecord) := none
  cachedElement : Option ElementRecord := none
  cachedScreenResolution : Option (Nat × Nat) := none
deriving DecidableEq, Repr

/-- The `outputFormat` argument of `getScreenHierarchy`. -/
inductive OutputFormat where
  | JSON
  | XML
deriving DecidableEq, Repr

/-- Return value of `getScreenHierarchy`: `UIHierarchy[] | string`. -/
inductive HOut where
  | elems (l : List ElementRecord)
  | raw (s : String)
deriving DecidableEq, Repr

/-- The flattened elements of a JSON-mode result (`as UIHierarchy[]`
cast in `findElement`; the raw case is unreachable for format 'JSON'). -/
def HOut.toElems : HOut → List ElementRecord
  | .elems l => l
  | .raw _ => []

/-- A `fs.writeFileSync` performed by `getScreenHierarchy`: either the
raw markup text or the JSON-serialised flattened hierarchy. -/
inductive FileWrite where
  | rawText (path : String) (content : String)
  | elemsJson (path : String) (content : List ElementRecord)
deriving DecidableEq, Repr

/-- `Screen.getScreenHierarchy`.  The device transport's textual reply
(`hierarchyXML`) and its `xml2js` parse (`parsedRoot`, modelling
`hierarchyJSON.hierarchy`) are explicit parameters; the returned triple
is (return value, file writes performed, updated cache state). -/
def getScreenHierarchy (st : ScreenState) (outputFormat : OutputFormat)
    (outputFilePath : Option String) (hierarchyXML : String) (parsedRoot : XNode) :
    HOut × List FileWrite × ScreenState :=
  match st.cachedScreenHierarchy with
  | some cached => (.elems cached, [], st)
  | none =>
    if outputFormat = .XML then
      (.raw hierarchyXML,
       (match outputFilePath with
        | some p => [.rawText p hierarchyXML]
        | none => []),
       st)
    else
      let elements := extractNodes parsedRoot
      (.elems elements,
       (match outputFilePath with
        | some p => [.elemsJson p elements]
        | none => []),
       { st with cachedScreenHierarchy := some elements })

/-- The `isMatching` predicate of `findElement`: every entry of the
condition object must be strictly equal (`!==` negated) to the record's
value at that key; a missing key reads as `undefined` and never equals
a condition value. -/
def isMatching (conditions : List (String × Value)) (element : ElementRecord) : Bool :=
  conditions.all (fun kv => lookupAttr element kv.1 == some kv.2)

/-- The `applyAttributesFilter` closure of `findElement`: when an
attribute list is supplied, build a fresh record keeping a requested
key only when `element[attr]` is truthy (`if (element[attr])`). -/
def applyAttributesFilter (attributes : Option (List String)) (element : ElementRecord) :
    ElementRecord :=
  match attributes with
  | some attrs =>
    attrs.foldl (fun acc attr =>
      match lookupAttr element attr with
      | some v => if truthyValue v then setAttr acc attr v else acc
      | none => acc) []
  | none => element

/-- The `screenHierarchyJSON || (await this.getScreenHierarchy('JSON'))`
step of `findElement`: the supplied hierarchy (an array is always
truthy in JS) or a fetched-and-flattened one, with the state the fetch
leaves behind. -/
def elementsUsed (st : ScreenState) (screenHierarchyJSON : Option (List ElementRecord))
    (hierarchyXML : String) (parsedRoot : XNode) : List ElementRecord × ScreenState :=
  match screenHierarchyJSON with
  | some l => (l, st)
  | none =>
    let r := getScreenHierarchy st .JSON none hierarchyXML parsedRoot
    (r.1.toElems, r.2.2)

/-- Return value of `findElement`: `UIHierarchy | UIHierarchy[] | null`. -/
inductive FindResult where
  | noMatch
  | single (e : ElementRecord)
  | multiple (l : List ElementRecord)
deriving DecidableEq, Repr

/-- `Screen.findElement`.  On an element-cache hit the cached record is
returned unconditionally; otherwise the used hierarchy is filtered by
`isMatching`, projected by `applyAttributesFilter`, and a unique result
is stored in the element cache. -/
def findElement (st : ScreenState) (conditions : List (String × Value))
    (screenHierarchyJSON : Option (List ElementRecord))
    (attributes : Option (List String))
    (hierarchyXML : String) (parsedRoot : XNode) : FindResult × ScreenState :=
  match st.cachedElement with
  | some cached => (.single cached, st)
  | none =>
    let p := elementsUsed st screenHierarchyJSON hierarchyXML parsedRoot
    let matchedElements := p.1.filter (isMatching conditions)
    if matchedElements.length = 0 then
      (.noMatch, p.2)
    else
      let result := matchedElements.map (applyAttributesFilter attributes)
      match result with
      | [e] => (.single e, { p.2 with cachedElement := some e })
      | _ => (.multiple result, p.2)

/-- Longest digit prefix, as matched greedily by `\d+`. -/
def digitsPrefix (cs : List Char) : List Char :=
  cs.takeWhile (fun c => c.isDigit)

/-- Backtracking attempt of the anchored pattern `(\d+)x(\d+)`: try a
first group of length `k`, `k-1`, ..., `1`; the second group is the
greedy digit run after the `x`. -/
def tryFirstGroup (cs : List Char) : Nat → Option (List Char × List Char)
  | 0 => none
  | k + 1 =>
    match cs.drop (k + 1) with
    | 'x' :: rest2 =>
      let g2 := digitsPrefix rest2
      if g2.length = 0 then tryFirstGroup cs k else some (cs.take (k + 1), g2)
    | _ => tryFirstGroup cs k

/-- Anchored match of `(\d+)x(\d+)` at the start of `cs` (greedy first
group with backtracking). -/
def matchWxHAt (cs : List Char) : Option (List Char × List Char) :=
  tryFirstGroup cs (digitsPrefix cs).length

/-- Leftmost match of the regular expression `(\d+)x(\d+)` in a
character list: scan start positions left to right. -/
def searchWxH : List Char → Option (List Char × List Char)
  | [] => none
  | c :: rest =>
    match matchWxHAt (c :: rest) with
    | some r => some r
    | none => searchWxH rest

/-- `parseInt` on a captured digit group. -/
def parseDigits (cs : List Char) : Nat :=
  cs.foldl (fun acc c => acc * 10 + (c.toNat - '0'.toNat)) 0

/-- `resolutionString.match(/(\d+)x(\d+)/)` followed by `parseInt` on
both groups. -/
def parseResolution (s : String) : Option (Nat × Nat) :=
  match searchWxH s.data with
  | some (g1, g2) => some (parseDigits g1, parseDigits g2)
  | none => none

/-- `Screen.getScreenResolution`.  The transport reply is an explicit
parameter: `.error` models a rejected `execCommand` (caught and turned
into `null`), `.ok s` the reported size string. -/
def getScreenResolution (st : ScreenState) (resp : Except String String) :
    Option (Nat × Nat) × ScreenState :=
  match st.cachedScreenResolution with
  | some r => (some r, st)
  | none =>
    match resp with
    | .error _ => (none, st)
    | .ok s =>
      match parseResolution s with
      | some (w, h) =>
        (some (w, h), { st with cachedScreenResolution := some (w, h) })
      | none => (none, st)

/-- `UIAttributes.checkAttribute`.  The guard
`cached == null || cached == undefined && element == null || element == undefined`
parses (by `&&` over `||` precedence) as
`cachedEmpty || (cachedEmpty && elementEmpty) || elementEmpty`;
`elementToCheck = element || cached` (a JS object is always truthy, so
the explicit argument wins whenever supplied, and the inner
`if (!elementToCheck)` branch is unreachable); a present attribute
yields `value === true`, an absent one yields `null`. -/
def checkAttribute (cachedElement : Option ElementRecord) (attrName : String)
    (element : Option ElementRecord) : Option Bool :=
  if cachedElement.isNone || (cachedElement.isNone && element.isNone) || element.isNone then
    none
  else
    let elementToCheck := element.getD (cachedElement.getD [])
    match lookupAttr elementToCheck attrName with
    | some v => some (v == Value.bool true)
    | none => none

/-- `UIAttributes.isCheckable`. -/
def isCheckable (cachedElement : Option ElementRecord) (element : Option ElementRecord) :
    Option Bool :=
  checkAttribute cachedElement "checkable" element

/-- `UIAttributes.checkChecked`. -/
def checkChecked (cachedElement : Option ElementRecord) (element : Option ElementRecord) :
    Option Bool :=
  checkAttribute cachedElement "checked" element

/-- `UIAttributes.isClickable`. -/
def isClickable (cachedElement : Option ElementRecord) (element : Option ElementRecord) :
    Option Bool :=
  checkAttribute cachedElement "clickable" element

/-- `UIAttributes.isEnabled`. -/
def isEnabled (cachedElement : Option ElementRecord) (element : Option ElementRecord) :
    Option Bool :=
  checkAttribute cachedElement "enabled" element

/-- `UIAttributes.isFocusable`. -/
def isFocusable (cachedElement : Option ElementRecord) (element : Option ElementRecord) :
    Option Bool :=
  checkAttribute cachedElement "focusable" element

/-- `UIAttributes.isFocused`. -/
def isFocused (cachedElement : Option ElementRecord) (element : Option ElementRecord) :
    Option Bool :=
  checkAttribute cachedElement "focused" element

/-- `UIAttributes.isScrollable`. -/
def isScrollable (cachedElement : Option ElementRecord) (element : Option ElementRecord) :
    Option Bool :=
  checkAttribute cachedElement "scrollable" element

/-- `UIAttributes.isLongClickable`. -/
def isLongClickable (cachedElement : Option ElementRecord) (element : Option ElementRecord) :
    Option Bool :=
  checkAttribute cachedElement "long-clickable" element

/-- `UIAttributes.isPassword`. -/
def isPassword (cachedElement : Option ElementRecord) (element : Option ElementRecord) :
    Option Bool :=
  checkAttribute cachedElement "password" element

/-- `UIAttributes.isSelected`. -/
def isSelected (cachedElement : Option ElementRecord) (element : Option ElementRecord) :
    Option Bool :=
  checkAttribute cachedElement "selected" element

/-- Specification-side view of a MatchResult built from the filtered
record list: "no match" for zero records, the single record for one,
the ordered sequence for several. -/
def matchResultOfList : List ElementRecord → FindResult
  | [] => .noMatch
  | [e] => .single e
  | l => .multiple l

mutual

/-- Specification-side pre-order node sequence of a parsed tree:
each node before all of its descendants, children in document order. -/
def preorderNodes (n : XNode) : List XNode :=
  match n with
  | .mk attrs children => .mk attrs children :: preorderForest children

/-- Pre-order node sequence of a forest, in document order. -/
def preorderForest (l : List XNode) : List XNode :=
  match l with
  | [] => []
  | c :: rest => preorderNodes c ++ preorderForest rest

end

/-- The record a node contributes to the flattened hierarchy, if any:
attribute-carrying nodes contribute their attribute record,
attribute-less nodes contribute nothing. -/
def nodeRecord (n : XNode) : Option ElementRecord :=
  n.attrs.map recordOfAttrs


/-! ## Basic lemmas about records, matching and flattening -/

theorem lookupAttr_setAttr (e : ElementRecord) (k k' : String) (v : Value) :
    lookupAttr (setAttr e k v) k' = if k = k' then some v else lookupAttr e k' := by
  induction e with
  | nil => simp [setAttr, lookupAttr]
  | cons kv rest ih =>
    obtain ⟨a, b⟩ := kv
    by_cases h0 : a = k
    · subst h0
      by_cases h1 : a = k' <;> simp [setAttr, lookupAttr, h1]
    · by_cases h1 : a = k'
      · subst h1
        have h2 : ¬ k = a := fun hh => h0 hh.symm
        simp [setAttr, lookupAttr, h0, h2]
      · simp [setAttr, lookupAttr, h0, h1, ih]

theorem mem_setAttr {kv : String × Value} {e : ElementRecord} {k : String} {v : Value}
    (h : kv ∈ setAttr e k v) : kv = (k, v) ∨ kv ∈ e := by
  induction e with
  | nil => simpa [setAttr] using h
  | cons kv₀ rest ih =>
    obtain ⟨a, b⟩ := kv₀
    by_cases h0 : a = k
    · simp only [setAttr, if_pos h0, List.mem_cons] at h
      rcases h with h | h
      · exact Or.inl h
      · exact Or.inr (List.mem_cons_of_mem _ h)
    · simp only [setAttr, if_neg h0, List.mem_cons] at h
      rcases h with h | h
      · exact Or.inr (by simp [h])
      · rcases ih h with h' | h'
        · exact Or.inl h'
        · exact Or.inr (List.mem_cons_of_mem _ h')

mutual

theorem extractNodes_eq_filterMap_preorder (n : XNode) :
    extractNodes n = (preorderNodes n).filterMap nodeRecord := by
  match n with
  | .mk (some a) ch =>
    rw [extractNodes.eq_1, preorderNodes.eq_1, List.filterMap_cons,
      extractForest_eq_filterMap_preorder ch]
    simp [nodeRecord, XNode.attrs]
  | .mk none ch =>
    rw [extractNodes.eq_2, preorderNodes.eq_1, List.filterMap_cons,
      extractForest_eq_filterMap_preorder ch]
    simp [nodeRecord, XNode.attrs]

theorem extractForest_eq_filterMap_preorder (l : List XNode) :
    extractForest l = (preorderForest l).filterMap nodeRecord := by
  match l with
  | [] => rw [extractForest.eq_1, preorderForest.eq_1]; rfl
  | c :: rest =>
    rw [extractForest.eq_2, preorderForest.eq_2, List.filterMap_append,
      extractNodes_eq_filterMap_preorder c, extractForest_eq_filterMap_preorder rest]

end

theorem extractForest_contains_child (ch : List XNode) :
    ∀ c ∈ ch, ∃ pre post, extractForest ch = pre ++ extractNodes c ++ post := by
  induction ch with
  | nil => simp
  | cons c0 rest ih =>
    intro c hc
    rcases List.mem_cons.mp hc with h | h
    · subst h
      exact ⟨[], extractForest rest, by rw [extractForest.eq_2]; simp⟩
    · obtain ⟨pre, post, hp⟩ := ih c h
      exact ⟨extractNodes c0 ++ pre, post, by rw [extractForest.eq_2, hp]; simp⟩

/-! ## Claim theorems -/

/-- C7: during flattening, an attribute value is coerced to a boolean exactly
when it is the literal token "true" or "false" (mapped to `true`/`false`);
every other token, including "True" and "1", is kept unchanged as a string in
the resulting ElementRecord. -/
theorem coerceAttrValue_exactly_true_false_tokens (s k : String) :
    (coerceAttrValue s = Value.bool true ↔ s = "true")
  ∧ (coerceAttrValue s = Value.bool false ↔ s = "false")
  ∧ (s ≠ "true" → s ≠ "false" → coerceAttrValue s = Value.str s)
  ∧ extractNodes (XNode.mk (some [(k, s)]) []) = [[(k, coerceAttrValue s)]]
  ∧ coerceAttrValue "True" = Value.str "True"
  ∧ coerceAttrValue "1" = Value.str "1" := by
  have hcases : (s = "false" ∧ coerceAttrValue s = Value.bool false) ∨
      (s ≠ "false" ∧ s = "true" ∧ coerceAttrValue s = Value.bool true) ∨
      (s ≠ "false" ∧ s ≠ "true" ∧ coerceAttrValue s = Value.str s) := by
    unfold coerceAttrValue
    by_cases h1 : s = "false"
    · exact Or.inl ⟨h1, by simp [h1]⟩
    · by_cases h2 : s = "true"
      · exact Or.inr (Or.inl ⟨h1, h2, by simp [h1, h2]⟩)
      · exact Or.inr (Or.inr ⟨h1, h2, by simp [h1, h2]⟩)
  refine ⟨?_, ?_, ?_, ?_, by decide, by decide⟩
  · constructor
    · intro h
      rcases hcases with ⟨h1, hc⟩ | ⟨h1, h2, hc⟩ | ⟨h1, h2, hc⟩
      · rw [hc] at h; simp at h
      · exact h2
      · rw [hc] at h; simp at h
    · intro h; rw [h]; rfl
  · constructor
    · intro h
      rcases hcases with ⟨h1, hc⟩ | ⟨h1, h2, hc⟩ | ⟨h1, h2, hc⟩
      · exact h1
      · rw [hc] at h; simp at h
      · rw [hc] at h; simp at h
    · intro h; rw [h]; rfl
  · intro h1 h2
    rcases hcases with ⟨h, _⟩ | ⟨_, h, _⟩ | ⟨_, _, hc⟩
    · exact absurd h h2
    · exact absurd h h1
    · exact hc
  · rw [extractNodes.eq_1, extractForest.eq_1]
    simp [recordOfAttrs, setAttr]

/-- Witness for C7 at the concrete token "True". -/
theorem coerceAttrValue_exactly_true_false_tokens_witness :
    coerceAttrValue "True" = Value.str "True" :=
  (coerceAttrValue_exactly_true_false_tokens "True" "k").2.2.1 (by decide) (by decide)

/-- C6 (code bug): with a populated element cache and no explicit element
argument, `checkAttribute` (and its wrappers such as `checkChecked`) return
`null` instead of consulting the cached element as its own documentation
states; likewise an explicit element argument is ignored when the cache is
empty.  Only when both the cache and the explicit argument are present does
the query resolve, and then the explicit argument wins. -/
theorem checkAttribute_never_uses_cached_element :
    checkChecked (some [("checked", Value.bool true)]) none = none
  ∧ checkAttribute (some [("checked", Value.bool true)]) "checked" none = none
  ∧ isClickable none (some [("clickable", Value.bool true)]) = none
  ∧ checkAttribute (some [("enabled", Value.bool false)]) "clickable"
      (some [("clickable", Value.bool true)]) = some true
  ∧ checkAttribute (some [("enabled", Value.bool false)]) "clickable"
      (some [("clickable", Value.str "yes")]) = some false
  ∧ checkAttribute (some [("enabled", Value.bool false)]) "missing"
      (some [("clickable", Value.bool true)]) = none := by
  refine ⟨by decide, by decide, by decide, by decide, by decide, by decide⟩

/-- C4 counterexample: a root node carrying attributes is *not* skipped by
`extractNodes` — it contributes the leading ElementRecord, so the output
differs from the root-skipping result the claim predicts. -/
theorem extractNodes_root_with_attrs_contributes_record :
    extractNodes
        (XNode.mk (some [("rotation", "0")]) [XNode.mk (some [("text", "hi")]) []]) =
      [[("rotation", Value.str "0")], [("text", Value.str "hi")]]
  ∧ [[("rotation", Value.str "0")], [("text", Value.str "hi")]] ≠
      ([[("text", Value.str "hi")]] : List ElementRecord) := by
  constructor
  · rw [extractNodes.eq_1, extractForest.eq_2, extractNodes.eq_1,
      extractForest.eq_1]
    decide
  · decide

/-- C4 amended: the flattener treats the document's root node exactly like any
other node: it contributes an ElementRecord iff it carries attributes (so a
root with attributes is not skipped), and in either case its children are
still recursed into, each child's records appearing in the output. -/
theorem extractNodes_treats_root_uniformly (a : List (String × String))
    (ch : List XNode) :
    extractNodes (XNode.mk (some a) ch) = recordOfAttrs a :: extractForest ch
  ∧ extractNodes (XNode.mk none ch) = extractForest ch
  ∧ (∀ c ∈ ch, ∃ pre post, extractForest ch = pre ++ extractNodes c ++ post) := by
  refine ⟨?_, ?_, extractForest_contains_child ch⟩
  · rw [extractNodes.eq_1]; rfl
  · rw [extractNodes.eq_2]; rfl

/-- Witness for C4's amended theorem at a concrete root and child list. -/
theorem extractNodes_treats_root_uniformly_witness :
    extractNodes (XNode.mk (some [("rotation", "0")]) [XNode.mk none []]) =
      recordOfAttrs [("rotation", "0")] :: extractForest [XNode.mk none []]
  ∧ ∃ pre post,
      extractForest [XNode.mk none []] =
        pre ++ extractNodes (XNode.mk none []) ++ post :=
  ⟨(extractNodes_treats_root_uniformly [("rotation", "0")] [XNode.mk none []]).1,
   (extractNodes_treats_root_uniformly [] [XNode.mk none []]).2.2
     (XNode.mk none []) (by simp)⟩

/-- C2: whenever its cache slot is non-empty, each operation returns the
cached value immediately, performs no device query (the result and state do
not depend on the device reply or parsed document), and ignores all of its
arguments; consequently two successive calls without clearing the cache
return the identical value, even with different device state in between. -/
theorem cache_hit_returns_cached_and_ignores_arguments (st : ScreenState) :
    (∀ l, st.cachedScreenHierarchy = some l →
      ∀ fmt path xml root, getScreenHierarchy st fmt path xml root = (.elems l, [], st))
  ∧ (∀ e, st.cachedElement = some e →
      ∀ conds shj attrs xml root,
        findElement st conds shj attrs xml root = (.single e, st))
  ∧ (∀ l, st.cachedScreenHierarchy = some l →
      ∀ fmt₁ path₁ xml₁ root₁ fmt₂ path₂ xml₂ root₂,
        (getScreenHierarchy st fmt₁ path₁ xml₁ root₁).1 =
          (getScreenHierarchy (getScreenHierarchy st fmt₁ path₁ xml₁ root₁).2.2
            fmt₂ path₂ xml₂ root₂).1)
  ∧ (∀ e, st.cachedElement = some e →
      ∀ conds₁ shj₁ attrs₁ xml₁ root₁ conds₂ shj₂ attrs₂ xml₂ root₂,
        (findElement st conds₁ shj₁ attrs₁ xml₁ root₁).1 =
          (findElement (findElement st conds₁ shj₁ attrs₁ xml₁ root₁).2
            conds₂ shj₂ attrs₂ xml₂ root₂).1) := by
  have hg : ∀ l, st.cachedScreenHierarchy = some l →
      ∀ fmt path xml root,
        getScreenHierarchy st fmt path xml root = (.elems l, [], st) := by
    intro l hl fmt path xml root
    simp [getScreenHierarchy, hl]
  have hf : ∀ e, st.cachedElement = some e →
      ∀ conds shj attrs xml root,
        findElement st conds shj attrs xml root = (.single e, st) := by
    intro e he conds shj attrs xml root
    simp [findElement, he]
  refine ⟨hg, hf, ?_, ?_⟩
  · intro l hl fmt₁ path₁ xml₁ root₁ fmt₂ path₂ xml₂ root₂
    rw [hg l hl fmt₁ path₁ xml₁ root₁]
    rw [hg l hl fmt₂ path₂ xml₂ root₂]
  · intro e he conds₁ shj₁ attrs₁ xml₁ root₁ conds₂ shj₂ attrs₂ xml₂ root₂
    rw [hf e he conds₁ shj₁ attrs₁ xml₁ root₁]
    rw [hf e he conds₂ shj₂ attrs₂ xml₂ root₂]

/-- Witness for C2 at concrete caches and (different) device replies. -/
theorem cache_hit_returns_cached_and_ignores_arguments_witness :
    getScreenHierarchy
        ⟨some [[("a", Value.bool true)]], none, none⟩ .XML (some "out.xml") "<x/>"
        (XNode.mk (some [("b", "1")]) []) =
      (.elems [[("a", Value.bool true)]], [],
        ⟨some [[("a", Value.bool true)]], none, none⟩)
  ∧ findElement ⟨none, some [("a", Value.bool true)], none⟩
        [("z", Value.str "?")] (some []) (some ["q"]) "<x/>" (XNode.mk none []) =
      (.single [("a", Value.bool true)], ⟨none, some [("a", Value.bool true)], none⟩) :=
  ⟨(cache_hit_returns_cached_and_ignores_arguments _).1 _ rfl .XML (some "out.xml")
      "<x/>" (XNode.mk (some [("b", "1")]) []),
   (cache_hit_returns_cached_and_ignores_arguments _).2.1 _ rfl
      [("z", Value.str "?")] (some []) (some ["q"]) "<x/>" (XNode.mk none [])⟩

/-- C9: on an empty Resolution Cache, `getScreenResolution` parses the first
`<int>x<int>` substring of the device-reported size string into a
(width, height) pair, populates the cache and returns it; with no such
substring, or on a transport error, it returns `null` and leaves the cache
empty so a subsequent call retries. -/
theorem getScreenResolution_parses_first_WxH (st : ScreenState)
    (hc : st.cachedScreenResolution = none) :
    getScreenResolution st (.ok "Physical size: 1080x2400") =
      (some (1080, 2400), { st with cachedScreenResolution := some (1080, 2400) })
  ∧ (∀ s w h, parseResolution s = some (w, h) →
      getScreenResolution st (.ok s) =
        (some (w, h), { st with cachedScreenResolution := some (w, h) }))
  ∧ (∀ s, parseResolution s = none → getScreenResolution st (.ok s) = (none, st))
  ∧ (∀ e, getScreenResolution st (.error e) = (none, st))
  ∧ parseResolution "Physical size: 1080x2400" = some (1080, 2400)
  ∧ parseResolution "no dimensions here" = none := by
  have hok : ∀ s w h, parseResolution s = some (w, h) →
      getScreenResolution st (.ok s) =
        (some (w, h), { st with cachedScreenResolution := some (w, h) }) := by
    intro s w h hp
    simp [getScreenResolution, hc, hp]
  refine ⟨hok _ 1080 2400 (by rfl), hok, ?_, ?_, by rfl, by rfl⟩
  · intro s hp
    simp [getScreenResolution, hc, hp]
  · intro e
    simp [getScreenResolution, hc]

/-- Witness for C9 at an empty cache and the concrete device strings. -/
theorem getScreenResolution_parses_first_WxH_witness :
    getScreenResolution ⟨none, none, none⟩ (.ok "Physical size: 1080x2400") =
      (some (1080, 2400), ⟨none, none, some (1080, 2400)⟩)
  ∧ getScreenResolution ⟨none, none, none⟩ (.ok "no dimensions here") =
      (none, ⟨none, none, none⟩)
  ∧ getScreenResolution ⟨none, none, none⟩ (.error "transport down") =
      (none, ⟨none, none, none⟩) :=
  ⟨(getScreenResolution_parses_first_WxH ⟨none, none, none⟩ rfl).1,
   (getScreenResolution_parses_first_WxH ⟨none, none, none⟩ rfl).2.2.1
      "no dimensions here" (by rfl),
   (getScreenResolution_parses_first_WxH ⟨none, none, none⟩ rfl).2.2.2.1
      "transport down"⟩

theorem applyAttributesFilter_none_id (l : List ElementRecord) :
    l.map (applyAttributesFilter none) = l := by
  induction l with
  | nil => rfl
  | cons a t ih => rw [List.map_cons, ih]; rfl

theorem isMatching_iff (conds : List (String × Value)) (e : ElementRecord) :
    isMatching conds e = true ↔ ∀ kv ∈ conds, lookupAttr e kv.1 = some kv.2 := by
  simp [isMatching, List.all_eq_true]

theorem getScreenHierarchy_preserves_element_cache (st : ScreenState)
    (fmt : OutputFormat) (path : Option String) (xml : String) (root : XNode) :
    ((getScreenHierarchy st fmt path xml root).2.2).cachedElement = st.cachedElement := by
  unfold getScreenHierarchy
  cases hh : st.cachedScreenHierarchy
  · split_ifs <;> rfl
  · rfl

theorem elementsUsed_preserves_element_cache (st : ScreenState)
    (shj : Option (List ElementRecord)) (xml : String) (root : XNode) :
    ((elementsUsed st shj xml root).2).cachedElement = st.cachedElement := by
  cases shj with
  | none => simpa [elementsUsed] using
      getScreenHierarchy_preserves_element_cache st .JSON none xml root
  | some l => rfl

/-- C1: with an empty Element Cache, `findElement` retains exactly the records
whose every condition key is present with a strictly equal value; a record
lacking any condition key is excluded, and the empty condition retains every
record of the hierarchy. -/
theorem findElement_filters_by_exact_equality (st : ScreenState)
    (hc : st.cachedElement = none) (conds : List (String × Value))
    (h : List ElementRecord) (xml : String) (root : XNode) :
    (findElement st conds (some h) none xml root).1 =
      matchResultOfList (h.filter (isMatching conds))
  ∧ (∀ e : ElementRecord, isMatching conds e = true ↔
      ∀ kv ∈ conds, lookupAttr e kv.1 = some kv.2)
  ∧ (∀ (e : ElementRecord) (k : String) (v : Value),
      (k, v) ∈ conds → lookupAttr e k = none → isMatching conds e = false)
  ∧ h.filter (isMatching []) = h := by
  refine ⟨?_, isMatching_iff conds, ?_, ?_⟩
  · simp only [findElement, hc, elementsUsed]
    rcases hm : h.filter (isMatching conds) with _ | ⟨a, _ | ⟨b, t⟩⟩ <;>
      simp [hm, matchResultOfList, applyAttributesFilter, applyAttributesFilter_none_id]
  · intro e k v hkv hnone
    cases hbool : isMatching conds e with
    | false => rfl
    | true =>
      have hh := (isMatching_iff conds e).mp hbool (k, v) hkv
      rw [hnone] at hh
      simp at hh
  · rw [List.filter_eq_self]
    intro a _
    rfl

/-- Witness for C1 at a concrete two-record hierarchy and condition. -/
theorem findElement_filters_by_exact_equality_witness :
    (findElement ⟨none, none, none⟩ [("id", Value.str "b1")]
        (some [[("id", Value.str "b1")], [("id", Value.str "b2")]]) none ""
        (XNode.mk none [])).1 =
      matchResultOfList
        ([[("id", Value.str "b1")], [("id", Value.str "b2")]].filter
          (isMatching [("id", Value.str "b1")])) :=
  (findElement_filters_by_exact_equality ⟨none, none, none⟩ rfl
      [("id", Value.str "b1")]
      [[("id", Value.str "b1")], [("id", Value.str "b2")]] ""
      (XNode.mk none [])).1

/-- C3: on an empty Element Cache, `findElement` returns `null` for zero
matches and leaves the Element Cache unwritten; stores and returns the single
remaining record when exactly one remains after filtering (and projection);
returns several remaining records as an ordered sequence in filter order with
the Element Cache untouched. -/
theorem findElement_result_shape_and_caching (st : ScreenState)
    (hc : st.cachedElement = none) (conds : List (String × Value))
    (shj : Option (List ElementRecord)) (attrs : Option (List String))
    (xml : String) (root : XNode)
    (p : List ElementRecord × ScreenState)
    (hp : elementsUsed st shj xml root = p)
    (matched result : List ElementRecord)
    (hm : p.1.filter (isMatching conds) = matched)
    (hr : matched.map (applyAttributesFilter attrs) = result) :
    p.2.cachedElement = none
  ∧ (matched = [] → findElement st conds shj attrs xml root = (.noMatch, p.2))
  ∧ (∀ e, result = [e] → findElement st conds shj attrs xml root =
      (.single e, { p.2 with cachedElement := some e }))
  ∧ (2 ≤ result.length → findElement st conds shj attrs xml root =
      (.multiple result, p.2))
  ∧ (attrs = none → result = matched) := by
  have hpres : p.2.cachedElement = none := by
    rw [← hp]
    rw [elementsUsed_preserves_element_cache st shj xml root]
    exact hc
  refine ⟨hpres, ?_, ?_, ?_, ?_⟩
  · intro hmt
    simp only [findElement, hc]
    rw [hp, hm, hmt]
    rfl
  · intro e hre
    have hlen : ¬ matched.length = 0 := by
      intro h0
      rw [List.length_eq_zero] at h0
      rw [h0] at hr
      simp at hr
      rw [← hr] at hre
      simp at hre
    simp only [findElement, hc]
    rw [hp, hm, if_neg hlen, hr, hre]
  · intro hlen2
    have hml : matched.length = result.length := by
      rw [← hr, List.length_map]
    have h0 : ¬ matched.length = 0 := by omega
    simp only [findElement, hc]
    rw [hp, hm, if_neg h0, hr]
    rcases result with _ | ⟨a, _ | ⟨b, t⟩⟩
    · simp at hlen2
    · simp at hlen2
    · rfl
  · intro ha
    rw [ha] at hr
    rw [← hr]
    exact applyAttributesFilter_none_id matched

/-- Witness for C3 at a concrete single-match input. -/
theorem findElement_result_shape_and_caching_witness :
    findElement ⟨none, none, none⟩ [("k", Value.str "v")]
        (some [[("k", Value.str "v")]]) none "" (XNode.mk none []) =
      (.single [("k", Value.str "v")],
        ⟨none, some [("k", Value.str "v")], none⟩) :=
  (findElement_result_shape_and_caching ⟨none, none, none⟩ rfl
      [("k", Value.str "v")] (some [[("k", Value.str "v")]]) none ""
      (XNode.mk none []) ([[("k", Value.str "v")]], ⟨none, none, none⟩) rfl
      [[("k", Value.str "v")]] [[("k", Value.str "v")]] (by rfl) (by rfl)).2.2.1
    [("k", Value.str "v")] rfl

theorem mem_projFold (e : ElementRecord) (attrs : List String)
    (acc : ElementRecord) {kv : String × Value}
    (h : kv ∈ attrs.foldl (fun acc attr =>
        match lookupAttr e attr with
        | some v => if truthyValue v then setAttr acc attr v else acc
        | none => acc) acc) :
    kv ∈ acc ∨ (kv.1 ∈ attrs ∧ lookupAttr e kv.1 = some kv.2 ∧
      truthyValue kv.2 = true) := by
  induction attrs generalizing acc with
  | nil => exact Or.inl h
  | cons a rest ih =>
    rw [List.foldl_cons] at h
    rcases ih _ h with hacc | hrest
    · cases hl : lookupAttr e a with
      | none =>
        simp only [hl] at hacc
        exact Or.inl hacc
      | some v =>
        simp only [hl] at hacc
        by_cases ht : truthyValue v
        · rw [if_pos ht] at hacc
          rcases mem_setAttr hacc with heq | hmem
          · subst heq
            exact Or.inr ⟨List.mem_cons_self a rest, hl, ht⟩
          · exact Or.inl hmem
        · rw [if_neg ht] at hacc
          exact Or.inl hacc
    · exact Or.inr ⟨List.mem_cons_of_mem a hrest.1, hrest.2⟩

theorem lookupAttr_projFold (e : ElementRecord) (attrs : List String)
    (acc : ElementRecord) (k : String) :
    lookupAttr (attrs.foldl (fun acc attr =>
        match lookupAttr e attr with
        | some v => if truthyValue v then setAttr acc attr v else acc
        | none => acc) acc) k =
      if k ∈ attrs ∧ (lookupAttr e k).any truthyValue = true then lookupAttr e k
      else lookupAttr acc k := by
  induction attrs generalizing acc with
  | nil => simp
  | cons a rest ih =>
    rw [List.foldl_cons, ih]
    by_cases hk : k ∈ rest ∧ (lookupAttr e k).any truthyValue = true
    · rw [if_pos hk, if_pos ⟨List.mem_cons_of_mem a hk.1, hk.2⟩]
    · rw [if_neg hk]
      by_cases hka : k = a
      · subst hka
        cases hl : lookupAttr e k with
        | none => simp [hl]
        | some v =>
          by_cases ht : truthyValue v
          · simp [hl, ht, lookupAttr_setAttr]
          · simp [hl, ht]
      · have hcond : ¬ (k ∈ a :: rest ∧ (lookupAttr e k).any truthyValue = true) := by
          rintro ⟨hmem, hany⟩
          rcases List.mem_cons.mp hmem with hh | hh
          · exact hka hh
          · exact hk ⟨hh, hany⟩
        rw [if_neg hcond]
        have hak : ¬ a = k := fun hh => hka hh.symm
        cases hl : lookupAttr e a with
        | none => simp only [hl]
        | some v =>
          by_cases ht : truthyValue v
          · simp [hl, ht, lookupAttr_setAttr, hak]
          · simp [hl, ht]

/-- C5 counterexample: the record `{clickable: false}` matches the empty
condition; the requested key "clickable" is present on it, yet the projection
returned (and cached) by `findElement` omits it, because the code keeps a key
only when its value is truthy (`if (element[attr])`). -/
theorem findElement_projection_drops_falsy_value :
    findElement ⟨none, none, none⟩ [] (some [[("clickable", Value.bool false)]])
        (some ["clickable"]) "" (XNode.mk none []) =
      (.single [], ⟨none, some [], none⟩)
  ∧ lookupAttr [("clickable", Value.bool false)] "clickable" =
      some (Value.bool false)
  ∧ ([] : ElementRecord) ≠ [("clickable", Value.bool false)] := by
  refine ⟨by decide, by decide, by decide⟩

/-- C5 amended: when attributesToReturn is supplied, each matching record is
projected down to at most the requested attribute keys; a requested key is
kept with its value exactly when it is present on the record with a truthy
value (boolean `true` or a nonempty string); requested keys that are absent,
or present with value `false` or the empty string, are omitted from its
projection (not filled with defaults). -/
theorem applyAttributesFilter_keeps_truthy_requested_keys (attrs : List String)
    (e : ElementRecord) :
    (∀ k, lookupAttr (applyAttributesFilter (some attrs) e) k =
      if k ∈ attrs ∧ (lookupAttr e k).any truthyValue = true then lookupAttr e k
      else none)
  ∧ (∀ kv ∈ applyAttributesFilter (some attrs) e,
      kv.1 ∈ attrs ∧ lookupAttr e kv.1 = some kv.2 ∧ truthyValue kv.2 = true) := by
  constructor
  · intro k
    simp only [applyAttributesFilter]
    rw [lookupAttr_projFold e attrs [] k]
    rfl
  · intro kv hkv
    simp only [applyAttributesFilter] at hkv
    rcases mem_projFold e attrs [] hkv with habs | hgood
    · simp at habs
    · exact hgood

/-- Witness for C5's amended theorem at a concrete record and request. -/
theorem applyAttributesFilter_keeps_truthy_requested_keys_witness :
    ("text" : String) ∈ ["text"]
  ∧ lookupAttr [("text", Value.str "hi")] "text" = some (Value.str "hi")
  ∧ truthyValue (Value.str "hi") = true :=
  (applyAttributesFilter_keeps_truthy_requested_keys ["text"]
      [("text", Value.str "hi")]).2 ("text", Value.str "hi") (by decide)

/-- C10: when attributesToReturn is supplied and exactly one record matches,
the value stored in the Element Cache is the projected record (holding at
most the requested keys), not the original full record, and every subsequent
`findElement` call returns exactly that projected record from the cache. -/
theorem findElement_caches_projected_record (st : ScreenState)
    (hc : st.cachedElement = none) (conds : List (String × Value))
    (shj : Option (List ElementRecord)) (attrs : List String)
    (xml : String) (root : XNode)
    (p : List ElementRecord × ScreenState)
    (hp : elementsUsed st shj xml root = p)
    (m : ElementRecord)
    (hm : p.1.filter (isMatching conds) = [m]) :
    findElement st conds shj (some attrs) xml root =
      (.single (applyAttributesFilter (some attrs) m),
        { p.2 with cachedElement := some (applyAttributesFilter (some attrs) m) })
  ∧ (∀ kv ∈ applyAttributesFilter (some attrs) m, kv.1 ∈ attrs)
  ∧ (∀ conds₂ shj₂ attrs₂ xml₂ root₂,
      findElement
          { p.2 with cachedElement := some (applyAttributesFilter (some attrs) m) }
          conds₂ shj₂ attrs₂ xml₂ root₂ =
        (.single (applyAttributesFilter (some attrs) m),
          { p.2 with cachedElement := some (applyAttributesFilter (some attrs) m) })) := by
  refine ⟨?_, ?_, ?_⟩
  · simp only [findElement, hc]
    rw [hp, hm]
    rfl
  · intro kv hkv
    simp only [applyAttributesFilter] at hkv
    rcases mem_projFold m attrs [] hkv with habs | hgood
    · simp at habs
    · exact hgood.1
  · intro conds₂ shj₂ attrs₂ xml₂ root₂
    simp [findElement]

/-- Witness for C10: a full record with a falsy and a truthy key, projected
to the truthy one, is what lands in the cache. -/
theorem findElement_caches_projected_record_witness :
    findElement ⟨none, none, none⟩ [("id", Value.str "b1")]
        (some [[("id", Value.str "b1"), ("clickable", Value.bool true)]])
        (some ["clickable"]) "" (XNode.mk none []) =
      (.single [("clickable", Value.bool true)],
        ⟨none, some [("clickable", Value.bool true)], none⟩) :=
  (findElement_caches_projected_record ⟨none, none, none⟩ rfl
      [("id", Value.str "b1")]
      (some [[("id", Value.str "b1"), ("clickable", Value.bool true)]])
      ["clickable"] "" (XNode.mk none [])
      ([[("id", Value.str "b1"), ("clickable", Value.bool true)]],
        ⟨none, none, none⟩) rfl
      [("id", Value.str "b1"), ("clickable", Value.bool true)] (by decide)).1

/-- C8: flattening emits records in pre-order document order: the flattened
output is exactly the pre-order node sequence filtered to attribute-carrying
nodes (so every attribute-carrying node's record precedes the records of all
its descendants), and attribute-less nodes contribute no record while their
children are still traversed. -/
theorem extractNodes_preorder_document_order (n : XNode) :
    extractNodes n = (preorderNodes n).filterMap nodeRecord
  ∧ (∀ a ch, extractNodes (XNode.mk (some a) ch) =
      recordOfAttrs a :: extractForest ch)
  ∧ (∀ ch, extractNodes (XNode.mk none ch) = extractForest ch)
  ∧ (∀ a ch, nodeRecord (XNode.mk (some a) ch) = some (recordOfAttrs a))
  ∧ (∀ ch, nodeRecord (XNode.mk none ch) = none) := by
  refine ⟨extractNodes_eq_filterMap_preorder n, ?_, ?_, ?_, ?_⟩
  · intro a ch
    rw [extractNodes.eq_1]
    rfl
  · intro ch
    rw [extractNodes.eq_2]
    rfl
  · intro a ch
    rfl
  · intro ch
    rfl
